import Mathlib

/-!
# Verification of the Orbital kernel task-execution subsystem

Shallow embedding of the Orbital kernel's task execution core
(`src/kernel/src/{scheduler,process,ipc,elf_loader,syscall,context_switch}.rs`)
and proofs of the specified properties: round-robin scheduling, the
time-quantum tick, process-id generation, the IPC ring buffer, the ELF
header parser, and the syscall handlers.

Machine integers (`u64`/`usize`) are modelled as `Nat` with explicit
`% 2 ^ 64` (resp. `% 2 ^ 32` where the code masks with `0xFFFFFFFF`)
at the points where the code wraps; `i64` results are modelled as `Int`.
-/

namespace Orbital

/-- Status of a process (`process.rs`, `enum ProcessStatus`). -/
inductive ProcessStatus where
  | Ready
  | Running
  | Blocked
  | Exited (code : Int)
deriving DecidableEq, Repr

/-- CPU context (`process.rs`, `struct TaskContext`): 18 fixed-order
register fields, each a `u64`. -/
structure TaskContext where
  rax : Nat
  rbx : Nat
  rcx : Nat
  rdx : Nat
  rsi : Nat
  rdi : Nat
  rbp : Nat
  rsp : Nat
  r8 : Nat
  r9 : Nat
  r10 : Nat
  r11 : Nat
  r12 : Nat
  r13 : Nat
  r14 : Nat
  r15 : Nat
  rip : Nat
  rflags : Nat
deriving DecidableEq, Repr

/-- `TaskContext::new(entry_point, _stack_top)` (`process.rs`): zeroes all
fields except `rdi`, which receives the task function pointer. -/
def TaskContext.new (entry_point : Nat) (_stack_top : Nat) : TaskContext :=
  { rax := 0, rbx := 0, rcx := 0, rdx := 0, rsi := 0, rdi := entry_point
    rbp := 0, rsp := 0, r8 := 0, r9 := 0, r10 := 0, r11 := 0, r12 := 0
    r13 := 0, r14 := 0, r15 := 0, rip := 0, rflags := 0 }

/-- Scheduler state (`scheduler.rs`, `struct Scheduler`). Process ids are
`u64`, modelled as `Nat`; the two counters are `usize`, modelled as `Nat`. -/
structure Scheduler where
  ready_queue : List Nat
  current_process : Option Nat
  time_quantum : Nat
  time_counter : Nat
deriving DecidableEq, Repr

namespace Scheduler

/-- `Scheduler::new` (`scheduler.rs`): empty queue, no current process,
quantum 100, counter 0. -/
def new : Scheduler :=
  { ready_queue := [], current_process := none, time_quantum := 100, time_counter := 0 }

/-- `Scheduler::enqueue` (`scheduler.rs`): push `pid` at the back unless
already present. -/
def enqueue (s : Scheduler) (pid : Nat) : Scheduler :=
  if pid ∈ s.ready_queue then s
  else { s with ready_queue := s.ready_queue ++ [pid] }

/-- `Scheduler::dequeue` (`scheduler.rs`): pop the front of the ready
queue, returning the popped id (if any) and the updated scheduler. -/
def dequeue (s : Scheduler) : Option Nat × Scheduler :=
  match s.ready_queue with
  | [] => (none, s)
  | p :: rest => (some p, { s with ready_queue := rest })

/-- `Scheduler::tick` (`scheduler.rs`): increment the intra-slice counter;
when it reaches the quantum, reset it to zero and report expiry. -/
def tick (s : Scheduler) : Bool × Scheduler :=
  let c := s.time_counter + 1
  if s.time_quantum ≤ c then (true, { s with time_counter := 0 })
  else (false, { s with time_counter := c })

/-- `Scheduler::schedule` (`scheduler.rs`): re-enqueue the current process
when the process table still marks it `Running` (drop it when `Blocked`
or `Exited`), then dequeue the new head as the next current process.
The process-table lookup `crate::process::get_process_status` is passed
in as `getStatus`, standing for the ambient global process table. -/
def schedule (getStatus : Nat → Option ProcessStatus) (s : Scheduler) :
    (Option Nat × Option Nat) × Scheduler :=
  let prev := s.current_process
  let s1 :=
    match s.current_process with
    | some pid =>
      match getStatus pid with
      | some .Running => s.enqueue pid
      | some .Blocked | some (.Exited _) => s
      | _ => s
    | none => s
  let (next, s2) := s1.dequeue
  ((prev, next), { s2 with current_process := next })

end Scheduler

/-- `TASK_STACK_SIZE` (`process.rs`): 4 KiB per task. -/
def TASK_STACK_SIZE : Nat := 4096

/-- A process record (`process.rs`, `struct Process`). The `stack` is the
4 KiB byte buffer; `id` is the `u64` inside `ProcessId`. -/
structure Process where
  id : Nat
  entry_point : Nat
  stack : List Nat
  saved_context : TaskContext
  status : ProcessStatus
  exit_code : Int
deriving DecidableEq, Repr

/-- Combined mutable kernel state: the global process table
(`PROCESS_TABLE: Vec<Process>`), the pid generator (`NEXT_PID: AtomicU64`,
starting at 1), and the global scheduler singleton. -/
structure KernelState where
  table : List Process
  next_pid : Nat
  sched : Scheduler
deriving DecidableEq, Repr

/-- The kernel state at first use: empty table, `NEXT_PID = 1`,
`Scheduler::new()`. -/
def KernelState.init : KernelState :=
  { table := [], next_pid := 1, sched := Scheduler.new }

/-- Rust's `as i64` cast on a `u64` value (two's complement
reinterpretation). -/
def u64AsI64 (n : Nat) : Int :=
  if n % 2 ^ 64 < 2 ^ 63 then ((n % 2 ^ 64 : Nat) : Int)
  else ((n % 2 ^ 64 : Nat) : Int) - 2 ^ 64

/-- `Process::new(entry_point)` (`process.rs`) with the pid drawn by
`ProcessId::new()` made explicit: zeroed 4 KiB stack, context from
`TaskContext::new`, status `Ready`, exit code 0. -/
def Process.make (pid : Nat) (entry_point : Nat) : Process :=
  { id := pid, entry_point := entry_point
    stack := List.replicate TASK_STACK_SIZE 0
    saved_context := TaskContext.new entry_point 0
    status := .Ready, exit_code := 0 }

/-- `create_process(entry_point)` (`process.rs`): reject a null entry
point (`-1`), reject a table of 256 or more processes (`-2`); otherwise
draw a fresh pid (`NEXT_PID.fetch_add(1)`, wrapping at `2^64`), push the
new process, enqueue its pid in the scheduler, and return `pid as i64`. -/
def create_process (entry_point : Nat) (s : KernelState) : Int × KernelState :=
  if entry_point = 0 then (-1, s)
  else if 256 ≤ s.table.length then (-2, s)
  else
    let pid := s.next_pid
    let s1 : KernelState :=
      { s with table := s.table ++ [Process.make pid entry_point]
               next_pid := (s.next_pid + 1) % 2 ^ 64 }
    let s2 : KernelState := { s1 with sched := s1.sched.enqueue pid }
    (u64AsI64 pid, s2)

/-- `get_process_status(pid)` (`process.rs`): status of the first table
entry with this id, if any. -/
def get_process_status (pid : Nat) (s : KernelState) : Option ProcessStatus :=
  (s.table.find? (fun p => p.id == pid)).map (·.status)

/-- Update the first matching entry of the table, as
`iter_mut().find(..)` does; returns the updated table and whether a
match was found. -/
def setStatusList (pid : Nat) (st : ProcessStatus) : List Process → Bool × List Process
  | [] => (false, [])
  | p :: rest =>
    if p.id == pid then (true, { p with status := st } :: rest)
    else ((setStatusList pid st rest).1, p :: (setStatusList pid st rest).2)

/-- `set_process_status(pid, status)` (`process.rs`): set the status of
the first table entry with this id; report whether it existed. -/
def set_process_status (pid : Nat) (st : ProcessStatus) (s : KernelState) :
    Bool × KernelState :=
  let (found, table') := setStatusList pid st s.table
  (found, { s with table := table' })

/-- `context_switch(current_pid, next_pid)` (`process.rs:386-402`): when a
current process is given and found in the table
(`get_process_context_mut` returns `Some`), stamp it `Ready`; then, when
the next process is found, stamp it `Running`. The register save/restore
bodies are placeholders in the source ("For now, this is a placeholder
for assembly-based save") and touch no modelled state. -/
def context_switch (current_pid : Option Nat) (next_pid : Nat) (s : KernelState) :
    KernelState :=
  let s1 :=
    match current_pid with
    | some pid =>
      if s.table.any (fun p => p.id == pid) then (set_process_status pid .Ready s).2
      else s
    | none => s
  if s1.table.any (fun p => p.id == next_pid) then
    (set_process_status next_pid .Running s1).2
  else s1

/-- `context_switch(current_pid, next_pid)` (`context_switch.rs:229-234`):
"For now, context switching is disabled" — the function discards its
arguments and changes nothing. -/
def context_switch_cs (current_pid : Option Nat) (next_pid : Option Nat)
    (s : KernelState) : KernelState :=
  let _ := (current_pid, next_pid)
  s

/-! ## IPC ring buffer (`ipc.rs`) -/

/-- `MAX_PAYLOAD` (`ipc.rs`): 256 bytes per message. -/
def MAX_PAYLOAD : Nat := 256

/-- `RING_BUFFER_SIZE` (`ipc.rs`): 256 slots. -/
def RING_BUFFER_SIZE : Nat := 256

/-- `RING_MASK` (`ipc.rs`): `RING_BUFFER_SIZE - 1 = 255`; `x & RING_MASK`
on a non-negative machine integer equals `x % 256`. -/
def RING_MASK : Nat := RING_BUFFER_SIZE - 1

/-- An IPC message (`ipc.rs`, `struct RingMessage`): `u32` sender and
message ids, `u16` payload length, 256-byte payload. -/
structure RingMessage where
  sender_task_id : Nat
  msg_id : Nat
  payload_len : Nat
  payload : List Nat
deriving DecidableEq, Repr

/-- `RingMessage::new` (`ipc.rs`): zeroed payload. -/
def RingMessage.new (sender_task_id msg_id payload_len : Nat) : RingMessage :=
  { sender_task_id := sender_task_id, msg_id := msg_id
    payload_len := payload_len, payload := List.replicate MAX_PAYLOAD 0 }

/-- Ring buffer state (`ipc.rs`, `struct RingBuffer`): the slot vector and
the two `AtomicUsize` indices. -/
structure RingBuffer where
  messages : List RingMessage
  write_index : Nat
  read_index : Nat
deriving DecidableEq, Repr

namespace RingBuffer

/-- `RingBuffer::new()` followed by `init()` (`ipc.rs`): 256 zeroed slots,
both indices 0. (The claims all concern an initialized buffer.) -/
def init : RingBuffer :=
  { messages := List.replicate RING_BUFFER_SIZE (RingMessage.new 0 0 0)
    write_index := 0, read_index := 0 }

/-- `RingBuffer::enqueue` (`ipc.rs`): fail when
`(write + 1) & RING_MASK == read & RING_MASK` (buffer full); otherwise
copy the message into slot `write & RING_MASK` and store
`(write + 1) & 0xFFFFFFFF` as the new write index. The `Err` path
executes no store, so the state is unchanged on failure. -/
def enqueue (rb : RingBuffer) (message : RingMessage) : Except Unit RingBuffer :=
  let write := rb.write_index
  let read := rb.read_index
  if (write + 1) % 256 = read % 256 then .error ()
  else
    let idx := write % 256
    .ok { rb with messages := rb.messages.set idx message
                  write_index := (write + 1) % 2 ^ 32 }

/-- `RingBuffer::dequeue` (`ipc.rs`): fail when
`read & RING_MASK == write & RING_MASK` (buffer empty); otherwise copy
the message out of slot `read & RING_MASK` and store
`(read + 1) & 0xFFFFFFFF` as the new read index. -/
def dequeue (rb : RingBuffer) : Option (RingMessage × RingBuffer) :=
  let read := rb.read_index
  let write := rb.write_index
  if read % 256 = write % 256 then none
  else
    let idx := read % 256
    some (rb.messages.getD idx (RingMessage.new 0 0 0),
          { rb with read_index := (read + 1) % 2 ^ 32 })

end RingBuffer

/-! ## ELF entry-point loader (`elf_loader.rs`) -/

/-- `ELF_MAGIC` (`elf_loader.rs`): `0x7f 'E' 'L' 'F'`. -/
def ELF_MAGIC : List Nat := [0x7f, 0x45, 0x4c, 0x46]

/-- ELF parse errors (`elf_loader.rs`, `enum ElfError`). -/
inductive ElfError where
  | BadMagic
  | BadClass
  | BadEncoding
  | BadType
  | BadMachine
  | TooSmall
  | BadVersion
deriving DecidableEq, Repr

/-- Parsed ELF information (`elf_loader.rs`, `struct ElfInfo`). -/
structure ElfInfo where
  entry_point : Nat
  size : Nat
deriving DecidableEq, Repr

/-- `u16::from_le_bytes([b0, b1])`. -/
def u16le (b0 b1 : Nat) : Nat := b0 + b1 * 2 ^ 8

/-- `u64::from_le_bytes([b0, .., b7])`. -/
def u64le (b0 b1 b2 b3 b4 b5 b6 b7 : Nat) : Nat :=
  b0 + b1 * 2 ^ 8 + b2 * 2 ^ 16 + b3 * 2 ^ 24 + b4 * 2 ^ 32 + b5 * 2 ^ 40 +
    b6 * 2 ^ 48 + b7 * 2 ^ 56

/-- `parse_elf(binary)` (`elf_loader.rs`): validate size, magic, class,
encoding, version, type and machine in that order, then read the 8-byte
little-endian entry point at offset `0x18`. Byte indexing `binary[i]`
(always under the `len >= 64` guard) is modelled by `List.getD`. -/
def parse_elf (binary : List Nat) : Except ElfError ElfInfo :=
  if binary.length < 64 then .error .TooSmall
  else if binary.take 4 ≠ ELF_MAGIC then .error .BadMagic
  else if binary.getD 4 0 ≠ 2 then .error .BadClass
  else if binary.getD 5 0 ≠ 1 then .error .BadEncoding
  else if binary.getD 6 0 ≠ 1 then .error .BadVersion
  else if u16le (binary.getD 16 0) (binary.getD 17 0) ≠ 2 then .error .BadType
  else if u16le (binary.getD 18 0) (binary.getD 19 0) ≠ 0x3e then .error .BadMachine
  else
    .ok { entry_point :=
            u64le (binary.getD 0x18 0) (binary.getD 0x19 0) (binary.getD 0x1a 0)
              (binary.getD 0x1b 0) (binary.getD 0x1c 0) (binary.getD 0x1d 0)
              (binary.getD 0x1e 0) (binary.getD 0x1f 0)
          size := binary.length }

/-! ## Syscall handlers (`syscall.rs`) -/

/-- Syscall error codes (`syscall.rs`, `enum SysError`). -/
inductive SysError where
  | Invalid
  | NotImplemented
  | Fault
  | PermissionDenied
  | NotFound
  | Error
  | BadFd
deriving DecidableEq, Repr

/-- `SysError::to_return_value` (`syscall.rs`): the stable negative code. -/
def SysError.to_return_value : SysError → Int
  | .Invalid => -1
  | .NotImplemented => -2
  | .Fault => -3
  | .PermissionDenied => -4
  | .NotFound => -5
  | .Error => -6
  | .BadFd => -9

/-- `sys_write(fd, ptr, len)` (`syscall.rs:244-289`): `BadFd` unless
`fd` is 1 or 2; `Invalid` when `len == 0` or `len > 4096`; `Fault` when
the pointer is null; otherwise the bytes are routed to the TTY
collaborator (out of scope) and `Ok(len)` is returned. -/
def sys_write (arg1 arg2 arg3 : Nat) : Except SysError Nat :=
  let fd := arg1
  let ptr := arg2
  let len := arg3
  if fd ≠ 1 ∧ fd ≠ 2 then .error .BadFd
  else if len = 0 then .error .Invalid
  else if 4096 < len then .error .Invalid
  else if ptr = 0 then .error .Fault
  else .ok len

/-- `sys_get_pid` (`syscall.rs:489-501`): always
`Ok(scheduler::current_process().unwrap_or(1))`; the scheduler singleton
is the explicit argument. -/
def sys_get_pid (sched : Scheduler) : Except SysError Nat :=
  .ok (sched.current_process.getD 1)

/-- `sys_task_create(entry_point)` (`syscall.rs:408-443`): reject a null
entry point; delegate to `create_process`; map `-1` to `Invalid` and
other negatives to `Error`; on success enqueue the pid (again) in the
scheduler, set its status `Ready`, and return it. -/
def sys_task_create (arg1 : Nat) (s : KernelState) :
    Except SysError Nat × KernelState :=
  if arg1 = 0 then (.error .Invalid, s)
  else
    let (pid, s1) := create_process arg1 s
    if pid < 0 then
      if pid = -1 then (.error .Invalid, s1)
      else (.error .Error, s1)
    else
      let s2 : KernelState := { s1 with sched := s1.sched.enqueue pid.toNat }
      let s3 := (set_process_status pid.toNat .Ready s2).2
      (.ok pid.toNat, s3)

/-! ## Execution traces

Iterated calls of the operations above, used to state the spec's
sequence properties. -/

/-- Scheduler state after `k` successive `schedule()` calls. -/
def schedStates (g : Nat → Option ProcessStatus) (s : Scheduler) : Nat → Scheduler
  | 0 => s
  | k + 1 => ((schedStates g s k).schedule g).2

/-- The next-process component returned by the `(k+1)`-th `schedule()`
call (counting from a start state `s`). -/
def nthNext (g : Nat → Option ProcessStatus) (s : Scheduler) (k : Nat) : Option Nat :=
  ((schedStates g s k).schedule g).1.2

/-- Enqueue a list of pids in order (repeated `Scheduler::enqueue`). -/
def enqueueAll (s : Scheduler) (ids : List Nat) : Scheduler :=
  ids.foldl Scheduler.enqueue s

/-- Scheduler state after `k` successive `tick()` calls. -/
def tickStates (s : Scheduler) : Nat → Scheduler
  | 0 => s
  | k + 1 => ((tickStates s k).tick).2

/-- A process-table operation: a `create_process` call or a
`set_process_status` call (the latter covers exits, which store
`Exited(code)`). -/
inductive ProcOp where
  | create (entry_point : Nat)
  | setStatus (pid : Nat) (st : ProcessStatus)

/-- Run a sequence of process-table operations, collecting the pids
returned by the successful `create_process` calls in call order. -/
def runProcOps : List ProcOp → KernelState → List Nat × KernelState
  | [], s => ([], s)
  | .create e :: ops, s =>
    let res := create_process e s
    let rest := runProcOps ops res.2
    if 0 < res.1 then (res.1.toNat :: rest.1, rest.2) else rest
  | .setStatus pid st :: ops, s =>
    runProcOps ops (set_process_status pid st s).2

/-- A ring-buffer operation. -/
inductive IpcOp where
  | enq (m : RingMessage)
  | deq

/-- Run a sequence of ring-buffer operations from state `rb`,
accumulating the successfully enqueued messages (`acc`) and the dequeued
messages (`deqd`), both in operation order. A failed enqueue or dequeue
leaves the buffer unchanged, exactly as the code's early-return paths
perform no store. -/
def runIpc : List IpcOp → RingBuffer → List RingMessage → List RingMessage →
    RingBuffer × List RingMessage × List RingMessage
  | [], rb, acc, deqd => (rb, acc, deqd)
  | .enq m :: ops, rb, acc, deqd =>
    match rb.enqueue m with
    | .ok rb' => runIpc ops rb' (acc ++ [m]) deqd
    | .error _ => runIpc ops rb acc deqd
  | .deq :: ops, rb, acc, deqd =>
    match rb.dequeue with
    | some (m, rb') => runIpc ops rb' acc (deqd ++ [m])
    | none => runIpc ops rb acc deqd

/-- One enqueue of a fresh zero message followed by one dequeue. -/
def pumpStep (rb : RingBuffer) : RingBuffer :=
  match rb.enqueue (RingMessage.new 0 0 0) with
  | .ok rb' =>
    match rb'.dequeue with
    | some (_, rb'') => rb''
    | none => rb'
  | .error _ => rb

/-- The buffer reached from `init` by `n` enqueue/dequeue pairs. -/
def pump : Nat → RingBuffer
  | 0 => RingBuffer.init
  | n + 1 => pumpStep (pump n)

/-- The scheduler state reached while round-robin cycling over a fixed
id list `ids`: the process at position `j` is current and the ready
queue holds the remaining ids in rotated order. -/
def rrState (ids : List Nat) (j : Nat) : Scheduler :=
  { ready_queue := ids.drop (j + 1) ++ ids.take j
    current_process := some (ids.getD j 0)
    time_quantum := 100
    time_counter := 0 }

/-- The 64-byte well-formed ELF header used by the source's own test:
magic, class 2 (64-bit), encoding 1 (LSB), version 1, type 2
(executable) at offsets 16-17, machine `0x3e` (x86-64) at offsets 18-19,
and entry point `0x1000` little-endian at offset `0x18`. -/
def elfTestHeader : List Nat :=
  [0x7f, 0x45, 0x4c, 0x46, 2, 1, 1, 0, 0, 0, 0, 0, 0, 0, 0, 0,
   2, 0, 0x3e, 0, 0, 0, 0, 0, 0x00, 0x10, 0, 0, 0, 0, 0, 0,
   0, 0, 0, 0, 0, 0, 0, 0, 0, 0, 0, 0, 0, 0, 0, 0,
   0, 0, 0, 0, 0, 0, 0, 0, 0, 0, 0, 0, 0, 0, 0, 0]

/-- A two-process table in which process 1 is already marked `Blocked`
and process 2 is `Ready`. -/
def csBlockedState : KernelState :=
  { table := [{ Process.make 1 4096 with status := .Blocked }, Process.make 2 8192]
    next_pid := 3
    sched := Scheduler.new }

/-- The buffer state after one successful enqueue of `RingMessage.new 1 2 3`
into a freshly initialized ring buffer. -/
def rbAfterOne : RingBuffer :=
  { messages := RingBuffer.init.messages.set 0 (RingMessage.new 1 2 3)
    write_index := 1
    read_index := 0 }

/-- Invariant tying a ring-buffer state to its operation history: `acc`
is the list of successfully enqueued messages and `deqd` the list of
dequeued ones. The dequeued list is a prefix of the enqueued list, the
two indices are the two list lengths modulo `2^32`, at most 255
messages are resident, and every resident message sits in its slot. -/
def IpcInv (rb : RingBuffer) (acc deqd : List RingMessage) : Prop :=
  rb.messages.length = 256 ∧
  deqd <+: acc ∧
  rb.write_index = acc.length % 2 ^ 32 ∧
  rb.read_index = deqd.length % 2 ^ 32 ∧
  acc.length - deqd.length ≤ 255 ∧
  ∀ i, deqd.length ≤ i → i < acc.length →
    rb.messages.getD (i % 256) (RingMessage.new 0 0 0) =
      acc.getD i (RingMessage.new 0 0 0)

/-! ## Theorems -/

/-- The intra-slice counter after `k` ticks of a fresh scheduler is
`k % 100`, and the quantum stays 100. -/
theorem tickStates_new_spec (k : Nat) :
    (tickStates Scheduler.new k).time_counter = k % 100 ∧
    (tickStates Scheduler.new k).time_quantum = 100 := by
  induction k with
  | zero => exact ⟨rfl, rfl⟩
  | succ k ih =>
    obtain ⟨hc, hq⟩ := ih
    simp only [tickStates, Scheduler.tick, hq, hc]
    by_cases h : (100 : Nat) ≤ k % 100 + 1
    · rw [if_pos h]
      constructor
      · show 0 = (k + 1) % 100
        omega
      · rfl
    · rw [if_neg h]
      constructor
      · show k % 100 + 1 = (k + 1) % 100
        omega
      · rfl

/-- C8: on a fresh scheduler (default quantum 100), the `(k+1)`-th
`tick()` call returns `true` exactly when `k + 1` is a multiple of 100:
`false` on each of the first 99 calls, `true` on the 100th, and the
pattern repeats for every subsequent block of 100 calls because the
counter resets to zero on expiry. -/
theorem scheduler_tick_period (k : Nat) :
    ((tickStates Scheduler.new k).tick).1 = decide ((k + 1) % 100 = 0) := by
  obtain ⟨hc, hq⟩ := tickStates_new_spec k
  simp only [Scheduler.tick, hq, hc]
  by_cases h : (100 : Nat) ≤ k % 100 + 1
  · rw [if_pos h]
    have : (k + 1) % 100 = 0 := by omega
    simp [this]
  · rw [if_neg h]
    have : (k + 1) % 100 ≠ 0 := by omega
    simp [this]

/-- C10: `sys_get_pid` never fails: it returns the scheduler's current
process id when one is set, and `Ok(1)` when no process is current. -/
theorem sys_get_pid_never_fails (sched : Scheduler) :
    (∃ n, sys_get_pid sched = .ok n) ∧
    (∀ p, sched.current_process = some p → sys_get_pid sched = .ok p) ∧
    (sched.current_process = none → sys_get_pid sched = .ok 1) := by
  refine ⟨⟨sched.current_process.getD 1, rfl⟩, ?_, ?_⟩
  · intro p hp
    simp [sys_get_pid, hp]
  · intro h
    simp [sys_get_pid, h]

/-- Witness for the `sys_get_pid` theorem at the fresh scheduler, whose
current process is `none`. -/
theorem sys_get_pid_never_fails_witness :
    sys_get_pid Scheduler.new = .ok 1 :=
  (sys_get_pid_never_fails Scheduler.new).2.2 rfl

/-- C7: `sys_write(fd, ptr, len)` returns `BadFd` for every fd other than
1 and 2; for fd 1 or 2 it returns `Invalid` when `len` is 0 or exceeds
4096, `Fault` when the pointer is null with a valid length, and
`Ok(len)` when the pointer is non-null and `0 < len ≤ 4096`. -/
theorem sys_write_spec (fd ptr len : Nat) :
    (fd ≠ 1 → fd ≠ 2 → sys_write fd ptr len = .error .BadFd) ∧
    ((fd = 1 ∨ fd = 2) → (len = 0 ∨ 4096 < len) → sys_write fd ptr len = .error .Invalid) ∧
    ((fd = 1 ∨ fd = 2) → ptr = 0 → 0 < len → len ≤ 4096 → sys_write fd ptr len = .error .Fault) ∧
    ((fd = 1 ∨ fd = 2) → ptr ≠ 0 → 0 < len → len ≤ 4096 → sys_write fd ptr len = .ok len) := by
  refine ⟨?_, ?_, ?_, ?_⟩ <;>
    · intros
      simp only [sys_write]
      split_ifs <;> first | rfl | (exfalso; omega)

/-- Witness for the `sys_write` theorem at the spec's five test points:
`write(3, _, 10)` is `BadFd`, `write(1, _, 0)` and `write(1, _, 5000)`
are `Invalid`, `write(1, null, 10)` is `Fault`, and `write(1, _, 10)`
returns 10. -/
theorem sys_write_spec_witness :
    sys_write 3 4096 10 = .error .BadFd ∧
    sys_write 1 4096 0 = .error .Invalid ∧
    sys_write 1 4096 5000 = .error .Invalid ∧
    sys_write 1 0 10 = .error .Fault ∧
    sys_write 1 4096 10 = .ok 10 :=
  ⟨(sys_write_spec 3 4096 10).1 (by decide) (by decide),
   (sys_write_spec 1 4096 0).2.1 (Or.inl rfl) (Or.inl rfl),
   (sys_write_spec 1 4096 5000).2.1 (Or.inl rfl) (Or.inr (by decide)),
   (sys_write_spec 1 0 10).2.2.1 (Or.inl rfl) rfl (by decide) (by decide),
   (sys_write_spec 1 4096 10).2.2.2 (Or.inl rfl) (by decide) (by decide) (by decide)⟩

/-- C6: `parse_elf` returns `TooSmall` for every input shorter than 64
bytes; returns `BadMagic` for every input of length at least 64 whose
first four bytes are not `0x7f 'E' 'L' 'F'`; and on the well-formed
64-byte header with entry-point field `0x1000` it succeeds with
`entry_point = 0x1000` (and `size = 64`). -/
theorem parse_elf_spec :
    (∀ b : List Nat, b.length < 64 → parse_elf b = .error .TooSmall) ∧
    (∀ b : List Nat, 64 ≤ b.length → b.take 4 ≠ ELF_MAGIC → parse_elf b = .error .BadMagic) ∧
    parse_elf elfTestHeader = .ok ⟨0x1000, 64⟩ := by
  refine ⟨?_, ?_, by rfl⟩
  · intro b h
    simp only [parse_elf]
    rw [if_pos h]
  · intro b h hm
    simp only [parse_elf]
    rw [if_neg (by omega), if_pos hm]

/-- Witness for the `parse_elf` theorem: a 63-byte input is `TooSmall`,
a 64-byte all-zero input is `BadMagic`, and the test header parses to
entry point `0x1000`. -/
theorem parse_elf_spec_witness :
    parse_elf (List.replicate 63 0) = .error .TooSmall ∧
    parse_elf (List.replicate 64 0) = .error .BadMagic ∧
    parse_elf elfTestHeader = .ok ⟨0x1000, 64⟩ :=
  ⟨parse_elf_spec.1 _ (by decide),
   parse_elf_spec.2.1 _ (by decide) (by decide),
   parse_elf_spec.2.2⟩

theorem pow64_val : (2 : Nat) ^ 64 = 18446744073709551616 := by norm_num

theorem pow63_val : (2 : Nat) ^ 63 = 9223372036854775808 := by norm_num

/-- Updating a status leaves the table length unchanged. -/
theorem setStatusList_length (pid : Nat) (st : ProcessStatus) (l : List Process) :
    (setStatusList pid st l).2.length = l.length := by
  induction l with
  | nil => rfl
  | cons p rest ih =>
    simp only [setStatusList]
    by_cases h : p.id == pid
    · rw [if_pos h]
      simp
    · rw [if_neg h]
      simp [ih]

/-- The pids returned by successful `create_process` calls, starting from
any state whose pid counter is one more than its table size (as every
reachable state is), form the contiguous range starting at that
counter. -/
theorem runProcOps_ids (ops : List ProcOp) :
    ∀ s : KernelState, s.next_pid = s.table.length + 1 → s.table.length ≤ 256 →
      (runProcOps ops s).1 = List.range' s.next_pid (runProcOps ops s).1.length := by
  induction ops with
  | nil =>
    intro s _ _
    rfl
  | cons op ops ih =>
    intro s h1 h2
    cases op with
    | setStatus pid st =>
      simp only [runProcOps]
      have hn : (set_process_status pid st s).2.next_pid = s.next_pid := rfl
      have hl : (set_process_status pid st s).2.table.length = s.table.length := by
        simp [set_process_status, setStatusList_length]
      rw [← hn]
      exact ih _ (by rw [hn, hl, h1]) (by rw [hl]; exact h2)
    | create e =>
      simp only [runProcOps]
      by_cases he : e = 0
      · have hcp : create_process e s = (-1, s) := by simp [create_process, he]
        simp only [hcp]
        rw [if_neg (by norm_num)]
        exact ih s h1 h2
      · by_cases hf : 256 ≤ s.table.length
        · have hcp : create_process e s = (-2, s) := by
            simp [create_process, he, hf]
          simp only [hcp]
          rw [if_neg (by norm_num)]
          exact ih s h1 h2
        · have hcp : create_process e s =
              (u64AsI64 s.next_pid,
               { table := s.table ++ [Process.make s.next_pid e]
                 next_pid := (s.next_pid + 1) % 2 ^ 64
                 sched := s.sched.enqueue s.next_pid }) := by
            simp only [create_process]
            rw [if_neg he, if_neg hf]
          have hlt64 : s.next_pid < 2 ^ 64 := by rw [pow64_val]; omega
          have hmod : s.next_pid % 2 ^ 64 = s.next_pid := Nat.mod_eq_of_lt hlt64
          have hmod1 : (s.next_pid + 1) % 2 ^ 64 = s.next_pid + 1 :=
            Nat.mod_eq_of_lt (by rw [pow64_val]; omega)
          rw [hmod1] at hcp
          have hcast : u64AsI64 s.next_pid = (s.next_pid : Int) := by
            unfold u64AsI64
            rw [hmod, if_pos (by rw [pow63_val]; omega)]
          have h0 : (0 : Int) < u64AsI64 s.next_pid := by
            rw [hcast, h1]
            exact_mod_cast Nat.succ_pos s.table.length
          simp only [hcp]
          rw [if_pos h0]
          have htoNat : (u64AsI64 s.next_pid).toNat = s.next_pid := by
            rw [hcast]
            exact Int.toNat_natCast _
          have hih := ih { table := s.table ++ [Process.make s.next_pid e]
                           next_pid := s.next_pid + 1
                           sched := s.sched.enqueue s.next_pid }
            (by show s.next_pid + 1 = (s.table ++ [Process.make s.next_pid e]).length + 1
                simp [h1])
            (by show (s.table ++ [Process.make s.next_pid e]).length ≤ 256
                simp only [List.length_append, List.length_singleton]
                omega)
          rw [htoNat, List.length_cons, List.range'_succ]
          exact congrArg (s.next_pid :: ·) hih

/-- C4: across any sequence of process-table operations (creates and
status updates, the latter covering exits) starting from the fresh
kernel state, the pids returned by the successful `create_process` calls
are exactly `1, 2, 3, ...` in call order: strictly increasing from 1 and
never reused, in particular not after a process has exited. -/
theorem create_pids_strictly_increasing (ops : List ProcOp) :
    (runProcOps ops KernelState.init).1 =
      List.range' 1 (runProcOps ops KernelState.init).1.length ∧
    (runProcOps ops KernelState.init).1.Nodup := by
  have h := runProcOps_ids ops KernelState.init rfl (by decide)
  refine ⟨h, ?_⟩
  rw [h]
  exact List.nodup_range' _ _

/-- An enqueued pid is in the ready queue. -/
theorem Scheduler.enqueue_mem (s : Scheduler) (pid : Nat) :
    pid ∈ (s.enqueue pid).ready_queue := by
  unfold enqueue
  by_cases h : pid ∈ s.ready_queue
  · rw [if_pos h]
    exact h
  · rw [if_neg h]
    simp

/-- Enqueueing a pid already in the queue changes nothing. -/
theorem Scheduler.enqueue_of_mem (s : Scheduler) (pid : Nat)
    (h : pid ∈ s.ready_queue) : s.enqueue pid = s := by
  unfold enqueue
  rw [if_pos h]

/-- `enqueue` preserves the no-duplicates property of the ready queue. -/
theorem Scheduler.enqueue_nodup (s : Scheduler) (pid : Nat)
    (h : s.ready_queue.Nodup) : (s.enqueue pid).ready_queue.Nodup := by
  unfold enqueue
  by_cases hm : pid ∈ s.ready_queue
  · rw [if_pos hm]
    exact h
  · rw [if_neg hm]
    simp [List.nodup_append, h, hm]

/-- `u64 as i64` round-trips through `toNat` when the value fits in a
`u64` and the cast came out positive. -/
theorem u64AsI64_pos_toNat (n : Nat) (hn : n < 2 ^ 64) (h : 0 < u64AsI64 n) :
    (u64AsI64 n).toNat = n := by
  unfold u64AsI64 at h ⊢
  rw [Nat.mod_eq_of_lt hn] at h ⊢
  by_cases hlt : n < 2 ^ 63
  · rw [if_pos hlt]
    exact Int.toNat_natCast n
  · rw [if_neg hlt] at h
    exfalso
    have h64 : (n : Int) < 18446744073709551616 := by exact_mod_cast pow64_val ▸ hn
    have hp : (2 : Int) ^ 64 = 18446744073709551616 := by norm_num
    rw [hp] at h
    omega

/-- C9: every pid returned by a successful `create_process` is already in
the scheduler's ready queue when `create_process` returns, and the
additional enqueue of the same pid performed afterwards by
`sys_task_create` leaves the ready queue unchanged; in particular a
duplicate is never introduced into a duplicate-free queue. -/
theorem task_create_queue (e : Nat) (s : KernelState)
    (h64 : s.next_pid < 2 ^ 64) (h : 0 < (create_process e s).1) :
    (create_process e s).1.toNat ∈ (create_process e s).2.sched.ready_queue ∧
    (sys_task_create e s).2.sched.ready_queue =
      (create_process e s).2.sched.ready_queue ∧
    (s.sched.ready_queue.Nodup →
      (sys_task_create e s).2.sched.ready_queue.Nodup) := by
  by_cases he : e = 0
  · have hcp : create_process e s = (-1, s) := by simp [create_process, he]
    rw [hcp] at h
    exact absurd h (by norm_num)
  by_cases hf : 256 ≤ s.table.length
  · have hcp : create_process e s = (-2, s) := by simp [create_process, he, hf]
    rw [hcp] at h
    exact absurd h (by norm_num)
  have hcp : create_process e s =
      (u64AsI64 s.next_pid,
       { table := s.table ++ [Process.make s.next_pid e]
         next_pid := (s.next_pid + 1) % 2 ^ 64
         sched := s.sched.enqueue s.next_pid }) := by
    simp only [create_process]
    rw [if_neg he, if_neg hf]
  rw [hcp] at h
  have htoNat : (u64AsI64 s.next_pid).toNat = s.next_pid := u64AsI64_pos_toNat _ h64 h
  have hstc : (sys_task_create e s).2.sched = s.sched.enqueue s.next_pid := by
    simp only [sys_task_create]
    rw [if_neg he]
    simp only [hcp]
    rw [if_neg (by omega)]
    show ((s.sched.enqueue s.next_pid).enqueue (u64AsI64 s.next_pid).toNat) = _
    rw [htoNat]
    exact Scheduler.enqueue_of_mem _ _ (Scheduler.enqueue_mem s.sched s.next_pid)
  refine ⟨?_, ?_, ?_⟩
  · rw [hcp]
    simp only [htoNat]
    exact Scheduler.enqueue_mem s.sched s.next_pid
  · rw [hstc, hcp]
  · intro hnd
    rw [hstc]
    exact Scheduler.enqueue_nodup _ _ hnd

/-- Witness for the `sys_task_create` queue theorem at the fresh kernel
state with entry point 77: the created pid 1 is in the queue after
`create_process`, and `sys_task_create`'s extra enqueue leaves the queue
equal to it. -/
theorem task_create_queue_witness :
    (create_process 77 KernelState.init).1.toNat ∈
      (create_process 77 KernelState.init).2.sched.ready_queue ∧
    (sys_task_create 77 KernelState.init).2.sched.ready_queue =
      (create_process 77 KernelState.init).2.sched.ready_queue :=
  ⟨(task_create_queue 77 KernelState.init (by decide) (by decide)).1,
   (task_create_queue 77 KernelState.init (by decide) (by decide)).2.1⟩

/-- After setting the status of `pid`, the first table entry with id
`pid` (when one exists) carries the new status. -/
theorem setStatusList_find_eq (pid : Nat) (st : ProcessStatus) (l : List Process)
    (h : l.any (fun p => p.id == pid) = true) :
    ((setStatusList pid st l).2.find? (fun p => p.id == pid)).map (·.status) =
      some st := by
  induction l with
  | nil => simp at h
  | cons p rest ih =>
    by_cases hp : (p.id == pid) = true
    · have hs : (setStatusList pid st (p :: rest)).2 = { p with status := st } :: rest := by
        simp only [setStatusList]
        rw [if_pos hp]
      have hf : List.find? (fun q => q.id == pid) ({ p with status := st } :: rest) =
          some { p with status := st } := List.find?_cons_of_pos rest hp
      rw [hs, hf]
      rfl
    · have hs : (setStatusList pid st (p :: rest)).2 =
          p :: (setStatusList pid st rest).2 := by
        simp only [setStatusList]
        rw [if_neg hp]
      have h' : rest.any (fun p => p.id == pid) = true := by
        simpa [hp] using h
      have hf : List.find? (fun q => q.id == pid)
            (p :: (setStatusList pid st rest).2) =
          List.find? (fun q => q.id == pid) (setStatusList pid st rest).2 :=
        List.find?_cons_of_neg _ hp
      rw [hs, hf]
      exact ih h'

/-- Setting the status of `pid'` does not change the status read back for
a different pid. -/
theorem setStatusList_find_ne (pid pid' : Nat) (st : ProcessStatus)
    (l : List Process) (hne : pid ≠ pid') :
    ((setStatusList pid' st l).2.find? (fun p => p.id == pid)).map (·.status) =
      (l.find? (fun p => p.id == pid)).map (·.status) := by
  induction l with
  | nil => rfl
  | cons p rest ih =>
    by_cases hp' : (p.id == pid') = true
    · have hs : (setStatusList pid' st (p :: rest)).2 =
          { p with status := st } :: rest := by
        simp only [setStatusList]
        rw [if_pos hp']
      have hpid : ¬(p.id == pid) = true := by
        simp only [beq_iff_eq] at hp' ⊢
        omega
      have hf1 : List.find? (fun q => q.id == pid)
            ({ p with status := st } :: rest) =
          List.find? (fun q => q.id == pid) rest :=
        List.find?_cons_of_neg _ hpid
      have hf2 : List.find? (fun q => q.id == pid) (p :: rest) =
          List.find? (fun q => q.id == pid) rest :=
        List.find?_cons_of_neg _ hpid
      rw [hs, hf1, hf2]
    · have hs : (setStatusList pid' st (p :: rest)).2 =
          p :: (setStatusList pid' st rest).2 := by
        simp only [setStatusList]
        rw [if_neg hp']
      by_cases hpid : (p.id == pid) = true
      · have hf1 : List.find? (fun q => q.id == pid)
              (p :: (setStatusList pid' st rest).2) = some p :=
          List.find?_cons_of_pos _ hpid
        have hf2 : List.find? (fun q => q.id == pid) (p :: rest) = some p :=
          List.find?_cons_of_pos _ hpid
        rw [hs, hf1, hf2]
      · have hf1 : List.find? (fun q => q.id == pid)
              (p :: (setStatusList pid' st rest).2) =
            List.find? (fun q => q.id == pid) (setStatusList pid' st rest).2 :=
          List.find?_cons_of_neg _ hpid
        have hf2 : List.find? (fun q => q.id == pid) (p :: rest) =
            List.find? (fun q => q.id == pid) rest :=
          List.find?_cons_of_neg _ hpid
        rw [hs, hf1, hf2]
        exact ih

/-- C3 counterexample: with process 1 marked `Blocked` in the table,
`context_switch(Some(1), 2)` does not leave process 1's status
unchanged — it stamps it `Ready`. -/
theorem context_switch_blocked_counterexample :
    get_process_status 1 csBlockedState = some .Blocked ∧
    get_process_status 1 (context_switch (some 1) 2 csBlockedState) =
      some .Ready := by
  exact ⟨rfl, rfl⟩

/-- C3 (amended): `context_switch(Some(p), next)` stamps `p`'s table
status `Ready` whenever `p` exists in the table — regardless of whether
the table marked it `Running`, `Blocked`, or `Exited` — provided `p` is
not itself the next process (which would afterwards be stamped
`Running`). -/
theorem context_switch_stamps_ready (p next : Nat) (s : KernelState)
    (hp : s.table.any (fun q => q.id == p) = true) (hne : p ≠ next) :
    get_process_status p (context_switch (some p) next s) = some .Ready := by
  simp only [context_switch]
  rw [if_pos hp]
  have hXtable : ((set_process_status p .Ready s).2).table =
      (setStatusList p .Ready s.table).2 := rfl
  by_cases hnx : ((set_process_status p .Ready s).2).table.any
      (fun q => q.id == next) = true
  · rw [if_pos hnx]
    show ((setStatusList next .Running
        ((set_process_status p .Ready s).2).table).2.find?
          (fun q => q.id == p)).map (·.status) = some .Ready
    rw [setStatusList_find_ne p next .Running _ hne, hXtable]
    exact setStatusList_find_eq p .Ready s.table hp
  · rw [if_neg hnx]
    show (((set_process_status p .Ready s).2).table.find?
        (fun q => q.id == p)).map (·.status) = some .Ready
    rw [hXtable]
    exact setStatusList_find_eq p .Ready s.table hp

/-- Witness for the amended `context_switch` theorem at the concrete
blocked-process state. -/
theorem context_switch_stamps_ready_witness :
    get_process_status 1 (context_switch (some 1) 2 csBlockedState) =
      some .Ready :=
  context_switch_stamps_ready 1 2 csBlockedState rfl (by decide)

/-- The next-process component of a `schedule()` call is exactly the
current process recorded in the post-call state. -/
theorem nthNext_eq_current (g : Nat → Option ProcessStatus) (s : Scheduler)
    (k : Nat) :
    nthNext g s k = (schedStates g s (k + 1)).current_process := rfl

/-- In a duplicate-free list, the element at position `j` does not occur
in the rotation formed by the part after it followed by the part before
it. -/
theorem getD_not_mem_rotate (ids : List Nat) (j : Nat) (hnd : ids.Nodup)
    (hj : j < ids.length) :
    ids.getD j 0 ∉ ids.drop (j + 1) ++ ids.take j := by
  intro hmem
  rw [List.mem_append] at hmem
  have hnd2 : (ids.take j ++ ids.drop j).Nodup := by
    rw [List.take_append_drop]
    exact hnd
  have hdropj : ids.drop j = ids.getD j 0 :: ids.drop (j + 1) := by
    rw [List.getD_eq_getElem _ _ hj]
    exact List.drop_eq_getElem_cons hj
  rw [hdropj, List.nodup_append] at hnd2
  obtain ⟨h1, h2, h3⟩ := hnd2
  cases hmem with
  | inl h => exact (List.nodup_cons.mp h2).1 h
  | inr h => exact h3 h (List.mem_cons_self _ _)

/-- Enqueueing a list of fresh, duplicate-free ids appends them to the
ready queue and changes nothing else. -/
theorem enqueueAll_spec (ids : List Nat) :
    ∀ s : Scheduler, (s.ready_queue ++ ids).Nodup →
      enqueueAll s ids = { s with ready_queue := s.ready_queue ++ ids } := by
  induction ids with
  | nil =>
    intro s _
    simp [enqueueAll]
  | cons a t ih =>
    intro s h
    have ha : a ∉ s.ready_queue := by
      rw [List.nodup_append] at h
      exact fun hmem => h.2.2 hmem (List.mem_cons_self _ _)
    have hs : s.enqueue a = { s with ready_queue := s.ready_queue ++ [a] } := by
      unfold Scheduler.enqueue
      rw [if_neg ha]
    have hstep : enqueueAll s (a :: t) = enqueueAll (s.enqueue a) t := rfl
    rw [hstep, hs, ih]
    · simp
    · simpa using h

/-- One `schedule()` call on a cycling state with all processes reported
`Running` rotates the cycle by one position, returning the rotated-out
id as previous and the new head as next. -/
theorem schedule_rrState (ids : List Nat) (g : Nat → Option ProcessStatus)
    (j : Nat) (hnd : ids.Nodup) (hj : j < ids.length)
    (hg : ∀ p ∈ ids, g p = some .Running) :
    (rrState ids j).schedule g =
      ((some (ids.getD j 0), some (ids.getD ((j + 1) % ids.length) 0)),
       rrState ids ((j + 1) % ids.length)) := by
  have hmem : ids.getD j 0 ∈ ids := by
    rw [List.getD_eq_getElem _ _ hj]
    exact List.getElem_mem hj
  have hnot : ids.getD j 0 ∉ ids.drop (j + 1) ++ ids.take j :=
    getD_not_mem_rotate ids j hnd hj
  have henq : ({ ready_queue := ids.drop (j + 1) ++ ids.take j
                 current_process := some (ids.getD j 0)
                 time_quantum := 100
                 time_counter := 0 } : Scheduler).enqueue (ids.getD j 0) =
      { ready_queue := (ids.drop (j + 1) ++ ids.take j) ++ [ids.getD j 0]
        current_process := some (ids.getD j 0)
        time_quantum := 100
        time_counter := 0 } := by
    unfold Scheduler.enqueue
    rw [if_neg hnot]
  have hsome : ids[j]? = some (ids.getD j 0) := by
    rw [List.getD_eq_getElem _ _ hj]
    exact List.getElem?_eq_getElem hj
  have htake : ids.take j ++ [ids.getD j 0] = ids.take (j + 1) := by
    rw [List.take_succ, hsome]
    rfl
  by_cases hlt : j + 1 < ids.length
  · have hmod : (j + 1) % ids.length = j + 1 := Nat.mod_eq_of_lt hlt
    have hdrop : ids.drop (j + 1) = ids.getD (j + 1) 0 :: ids.drop (j + 2) := by
      rw [List.getD_eq_getElem _ _ hlt]
      exact List.drop_eq_getElem_cons hlt
    have hqueue : (ids.drop (j + 1) ++ ids.take j) ++ [ids.getD j 0] =
        ids.getD (j + 1) 0 :: (ids.drop (j + 2) ++ ids.take (j + 1)) := by
      rw [hdrop, List.cons_append, List.cons_append, List.append_assoc, htake]
    rw [hmod]
    simp only [Scheduler.schedule, rrState, hg _ hmem]
    rw [henq, hqueue]
    simp only [Scheduler.dequeue]
  · have hj1 : j + 1 = ids.length := by omega
    have hmod : (j + 1) % ids.length = 0 := by
      rw [hj1, Nat.mod_self]
    have hqueue : (ids.drop (j + 1) ++ ids.take j) ++ [ids.getD j 0] = ids := by
      rw [hj1, List.drop_length, List.nil_append, htake, hj1, List.take_length]
    obtain ⟨a, t, hids⟩ : ∃ a t, ids = a :: t := by
      cases ids with
      | nil => simp at hj
      | cons a t => exact ⟨a, t, rfl⟩
    rw [hmod]
    simp only [Scheduler.schedule, rrState, hg _ hmem]
    rw [henq, hqueue, hids]
    simp only [Scheduler.dequeue, List.drop_succ_cons, List.drop_zero,
      List.take_zero, List.append_nil, List.getD_cons_zero]

/-- After `k + 1` calls of `schedule()` on a fresh scheduler loaded with
distinct always-`Running` ids, the state is the round-robin cycle state
at position `k % N`. -/
theorem schedStates_rotate (ids : List Nat) (g : Nat → Option ProcessStatus)
    (hnd : ids.Nodup) (hlen : 0 < ids.length)
    (hg : ∀ p ∈ ids, g p = some .Running) :
    ∀ k, schedStates g (enqueueAll Scheduler.new ids) (k + 1) =
      rrState ids (k % ids.length) := by
  have hinit : enqueueAll Scheduler.new ids =
      { ready_queue := ids, current_process := none
        time_quantum := 100, time_counter := 0 } := by
    rw [enqueueAll_spec ids Scheduler.new (by simpa [Scheduler.new] using hnd)]
    rfl
  intro k
  induction k with
  | zero =>
    have h1 : schedStates g (enqueueAll Scheduler.new ids) 1 =
        (Scheduler.schedule g (enqueueAll Scheduler.new ids)).2 := rfl
    rw [h1, hinit]
    obtain ⟨a, t, hids⟩ : ∃ a t, ids = a :: t := by
      cases ids with
      | nil => simp at hlen
      | cons a t => exact ⟨a, t, rfl⟩
    subst hids
    simp only [Scheduler.schedule, Scheduler.dequeue, Nat.zero_mod, rrState]
    simp
  | succ k ih =>
    have h1 : schedStates g (enqueueAll Scheduler.new ids) (k + 2) =
        (Scheduler.schedule g (schedStates g (enqueueAll Scheduler.new ids) (k + 1))).2 :=
      rfl
    rw [h1, ih, schedule_rrState ids g (k % ids.length) hnd (Nat.mod_lt _ hlen) hg]
    show rrState ids ((k % ids.length + 1) % ids.length) =
      rrState ids ((k + 1) % ids.length)
    rw [Nat.mod_add_mod]

/-- C1: round-robin fairness. For distinct process ids loaded into a
fresh scheduler whose table status stays `Running`, the `(k+1)`-th
`schedule()` call returns the id at position `k % N` as the next
process: the first `N` calls return each id exactly once in enqueue
order, the `(N+1)`-th call returns the first id again, and the cycle
repeats forever. -/
theorem scheduler_round_robin (ids : List Nat) (g : Nat → Option ProcessStatus)
    (k : Nat) (hnd : ids.Nodup) (hlen : 0 < ids.length)
    (hg : ∀ p ∈ ids, g p = some .Running) :
    nthNext g (enqueueAll Scheduler.new ids) k =
      some (ids.getD (k % ids.length) 0) := by
  rw [nthNext_eq_current, schedStates_rotate ids g hnd hlen hg k]
  rfl

/-- Witness for the round-robin theorem: with ids `[5, 7, 9]` the fourth
`schedule()` call returns the first id 5 again. -/
theorem scheduler_round_robin_witness :
    nthNext (fun _ => some .Running) (enqueueAll Scheduler.new [5, 7, 9]) 3 =
      some 5 :=
  scheduler_round_robin [5, 7, 9] (fun _ => some .Running) 3 (by decide)
    (by decide) (fun p _ => rfl)

theorem pow32_val : (2 : Nat) ^ 32 = 4294967296 := by norm_num

/-- `getD` of a just-set slot returns the stored value. -/
theorem getD_set_self {α : Type} (l : List α) (i : Nat) (a d : α)
    (h : i < l.length) : (l.set i a).getD i d = a := by
  rw [List.getD_eq_getElem?_getD, List.getElem?_set_self h]
  rfl

/-- `getD` of a different slot is unaffected by `set`. -/
theorem getD_set_ne {α : Type} (l : List α) (i j : Nat) (a d : α)
    (h : i ≠ j) : (l.set i a).getD j d = l.getD j d := by
  rw [List.getD_eq_getElem?_getD, List.getElem?_set_ne h,
    ← List.getD_eq_getElem?_getD]

/-- After `n` enqueue/dequeue pairs from the initialized buffer, both
indices equal `n % 2^32`: the `& 0xFFFFFFFF` store makes them wrap. -/
theorem pump_indices (n : Nat) :
    (pump n).write_index = n % 2 ^ 32 ∧ (pump n).read_index = n % 2 ^ 32 := by
  induction n with
  | zero => exact ⟨rfl, rfl⟩
  | succ n ih =>
    obtain ⟨hw, hr⟩ := ih
    have hfull : ¬(((pump n).write_index + 1) % 256 = (pump n).read_index % 256) := by
      rw [hw, hr, pow32_val]
      omega
    have henq : (pump n).enqueue (RingMessage.new 0 0 0) =
        Except.ok
          { messages := (pump n).messages.set ((pump n).write_index % 256)
              (RingMessage.new 0 0 0)
            write_index := ((pump n).write_index + 1) % 2 ^ 32
            read_index := (pump n).read_index } := by
      unfold RingBuffer.enqueue
      rw [if_neg hfull]
    have hempty : ¬((pump n).read_index % 256 =
        (((pump n).write_index + 1) % 2 ^ 32) % 256) := by
      rw [hw, hr, pow32_val]
      omega
    have hdeq : RingBuffer.dequeue
        { messages := (pump n).messages.set ((pump n).write_index % 256)
            (RingMessage.new 0 0 0)
          write_index := ((pump n).write_index + 1) % 2 ^ 32
          read_index := (pump n).read_index } =
        some (((pump n).messages.set ((pump n).write_index % 256)
            (RingMessage.new 0 0 0)).getD ((pump n).read_index % 256)
            (RingMessage.new 0 0 0),
          { messages := (pump n).messages.set ((pump n).write_index % 256)
              (RingMessage.new 0 0 0)
            write_index := ((pump n).write_index + 1) % 2 ^ 32
            read_index := ((pump n).read_index + 1) % 2 ^ 32 }) := by
      unfold RingBuffer.dequeue
      rw [if_neg hempty]
    have hstep : pump (n + 1) =
        { messages := (pump n).messages.set ((pump n).write_index % 256)
            (RingMessage.new 0 0 0)
          write_index := ((pump n).write_index + 1) % 2 ^ 32
          read_index := ((pump n).read_index + 1) % 2 ^ 32 } := by
      show pumpStep (pump n) = _
      unfold pumpStep
      simp only [henq]
      simp only [hdeq]
    rw [hstep]
    constructor
    · show ((pump n).write_index + 1) % 2 ^ 32 = (n + 1) % 2 ^ 32
      rw [hw, pow32_val]
      omega
    · show ((pump n).read_index + 1) % 2 ^ 32 = (n + 1) % 2 ^ 32
      rw [hr, pow32_val]
      omega

/-- C5 counterexample: the indices are not monotonically increasing
64-bit counters. In the reachable state after `2^32 - 1` enqueue/dequeue
pairs the write index is `4294967295`, and the next successful enqueue
stores `(write_index + 1) & 0xFFFFFFFF = 0`, wrapping it back to a
smaller value instead of increasing it by 1. -/
theorem ring_index_wrap_counterexample :
    (pump 4294967295).write_index = 4294967295 ∧
    ((pump 4294967295).enqueue (RingMessage.new 0 0 0)).map
      RingBuffer.write_index = .ok 0 := by
  obtain ⟨hw, hr⟩ := pump_indices 4294967295
  have hw' : (pump 4294967295).write_index = 4294967295 := by
    rw [hw, pow32_val]
  have hr' : (pump 4294967295).read_index = 4294967295 := by
    rw [hr, pow32_val]
  refine ⟨hw', ?_⟩
  have hfull : ¬(((pump 4294967295).write_index + 1) % 256 =
      (pump 4294967295).read_index % 256) := by
    rw [hw', hr']
    decide
  have henq : (pump 4294967295).enqueue (RingMessage.new 0 0 0) =
      Except.ok
        { messages := (pump 4294967295).messages.set
            ((pump 4294967295).write_index % 256) (RingMessage.new 0 0 0)
          write_index := ((pump 4294967295).write_index + 1) % 2 ^ 32
          read_index := (pump 4294967295).read_index } := by
    unfold RingBuffer.enqueue
    rw [if_neg hfull]
  rw [henq, hw', pow32_val]
  rfl

/-- C5 (amended): each successful enqueue advances `write_index` by
exactly one modulo `2^32` (the stored value is
`(write_index + 1) & 0xFFFFFFFF`, so the counter is 32-bit, increasing
by 1 except when wrapping from `2^32 - 1` to 0) and leaves `read_index`
unchanged; dually for dequeue and `read_index`. The index is
interpreted modulo the capacity via the `& RING_MASK` mask. -/
theorem ring_index_advance (rb : RingBuffer) :
    (∀ m rb', rb.enqueue m = .ok rb' →
      rb'.write_index = (rb.write_index + 1) % 2 ^ 32 ∧
      rb'.read_index = rb.read_index ∧
      (rb.write_index < 2 ^ 32 - 1 → rb'.write_index = rb.write_index + 1)) ∧
    (∀ m rb', rb.dequeue = some (m, rb') →
      rb'.read_index = (rb.read_index + 1) % 2 ^ 32 ∧
      rb'.write_index = rb.write_index ∧
      (rb.read_index < 2 ^ 32 - 1 → rb'.read_index = rb.read_index + 1)) := by
  constructor
  · intro m rb' h
    unfold RingBuffer.enqueue at h
    by_cases hfull : (rb.write_index + 1) % 256 = rb.read_index % 256
    · rw [if_pos hfull] at h
      simp at h
    · rw [if_neg hfull] at h
      injection h with h
      subst h
      refine ⟨rfl, rfl, ?_⟩
      intro hlt
      show (rb.write_index + 1) % 2 ^ 32 = rb.write_index + 1
      rw [pow32_val]
      omega
  · intro m rb' h
    unfold RingBuffer.dequeue at h
    by_cases hempty : rb.read_index % 256 = rb.write_index % 256
    · rw [if_pos hempty] at h
      simp at h
    · rw [if_neg hempty] at h
      injection h with h
      injection h with h1 h2
      subst h2
      refine ⟨rfl, rfl, ?_⟩
      intro hlt
      show (rb.read_index + 1) % 2 ^ 32 = rb.read_index + 1
      rw [pow32_val]
      omega

/-- Witness for the index-advance theorem: enqueueing into the fresh
buffer yields write index 1 and read index 0. -/
theorem ring_index_advance_witness :
    rbAfterOne.write_index = (RingBuffer.init.write_index + 1) % 2 ^ 32 ∧
    rbAfterOne.read_index = RingBuffer.init.read_index :=
  ⟨((ring_index_advance RingBuffer.init).1 (RingMessage.new 1 2 3)
      rbAfterOne rfl).1,
   ((ring_index_advance RingBuffer.init).1 (RingMessage.new 1 2 3)
      rbAfterOne rfl).2.1⟩

/-- The initialized buffer satisfies the history invariant with empty
histories. -/
theorem ipc_inv_init : IpcInv RingBuffer.init [] [] := by
  have hlen : RingBuffer.init.messages.length = 256 := by
    show (List.replicate RING_BUFFER_SIZE (RingMessage.new 0 0 0)).length = 256
    rw [List.length_replicate]
    rfl
  refine ⟨hlen, ⟨[], rfl⟩, rfl, rfl, by simp, ?_⟩
  intro i h1 h2
  simp at h2

/-- Effect of one `enqueue` on an invariant state: with 255 messages
resident it fails (and, the error path storing nothing, the state is
unchanged); otherwise it succeeds, storing the message in slot
`write_index & RING_MASK` and preserving the invariant with the message
appended to the accepted history. -/
theorem ipc_inv_enq (rb : RingBuffer) (acc deqd : List RingMessage)
    (h : IpcInv rb acc deqd) (m : RingMessage) :
    (acc.length - deqd.length = 255 ∧ rb.enqueue m = .error ()) ∨
    (acc.length - deqd.length ≠ 255 ∧
      rb.enqueue m = .ok
        { messages := rb.messages.set (rb.write_index % 256) m
          write_index := (rb.write_index + 1) % 2 ^ 32
          read_index := rb.read_index } ∧
      IpcInv
        { messages := rb.messages.set (rb.write_index % 256) m
          write_index := (rb.write_index + 1) % 2 ^ 32
          read_index := rb.read_index } (acc ++ [m]) deqd) := by
  obtain ⟨hlen, hpre, hw, hr, hres, hslot⟩ := h
  have hDle : deqd.length ≤ acc.length := hpre.length_le
  by_cases hfull : (rb.write_index + 1) % 256 = rb.read_index % 256
  · left
    constructor
    · rw [hw, hr, pow32_val] at hfull
      omega
    · unfold RingBuffer.enqueue
      rw [if_pos hfull]
  · right
    have hres' : acc.length - deqd.length ≠ 255 := by
      intro hEq
      apply hfull
      rw [hw, hr, pow32_val]
      omega
    refine ⟨hres', by unfold RingBuffer.enqueue; rw [if_neg hfull], ?_⟩
    refine ⟨by simp [hlen], hpre.trans (List.prefix_append acc [m]), ?_, hr, ?_, ?_⟩
    · show (rb.write_index + 1) % 2 ^ 32 = (acc ++ [m]).length % 2 ^ 32
      simp only [List.length_append, List.length_singleton]
      rw [hw, pow32_val]
      omega
    · show (acc ++ [m]).length - deqd.length ≤ 255
      simp only [List.length_append, List.length_singleton]
      omega
    · intro i h1 h2
      simp only [List.length_append, List.length_singleton] at h2
      by_cases hi : i = acc.length
      · subst hi
        have hidx : rb.write_index % 256 = acc.length % 256 := by
          rw [hw, pow32_val]
          omega
        rw [hidx, getD_set_self _ _ _ _ (by rw [hlen]; omega)]
        rw [List.getD_append_right _ _ _ _ (le_refl _)]
        simp
      · have hi' : i < acc.length := by omega
        have hne : rb.write_index % 256 ≠ i % 256 := by
          rw [hw, pow32_val]
          omega
        rw [getD_set_ne _ _ _ _ _ hne, hslot i h1 hi',
          List.getD_append _ _ _ _ hi']

/-- Effect of one `dequeue` on an invariant state: with no message
resident it fails; otherwise it returns the oldest not-yet-dequeued
accepted message and preserves the invariant with that message appended
to the dequeued history. -/
theorem ipc_inv_deq (rb : RingBuffer) (acc deqd : List RingMessage)
    (h : IpcInv rb acc deqd) :
    (acc.length = deqd.length ∧ rb.dequeue = none) ∨
    (deqd.length < acc.length ∧
      rb.dequeue = some (acc.getD deqd.length (RingMessage.new 0 0 0),
        { messages := rb.messages
          write_index := rb.write_index
          read_index := (rb.read_index + 1) % 2 ^ 32 }) ∧
      IpcInv
        { messages := rb.messages
          write_index := rb.write_index
          read_index := (rb.read_index + 1) % 2 ^ 32 }
        acc (deqd ++ [acc.getD deqd.length (RingMessage.new 0 0 0)])) := by
  obtain ⟨hlen, hpre, hw, hr, hres, hslot⟩ := h
  have hDle : deqd.length ≤ acc.length := hpre.length_le
  by_cases hempty : rb.read_index % 256 = rb.write_index % 256
  · left
    constructor
    · rw [hr, hw, pow32_val] at hempty
      omega
    · unfold RingBuffer.dequeue
      rw [if_pos hempty]
  · right
    have hlt : deqd.length < acc.length := by
      by_contra hge
      apply hempty
      rw [hr, hw, pow32_val]
      omega
    have hdq : rb.dequeue =
        some (rb.messages.getD (rb.read_index % 256) (RingMessage.new 0 0 0),
          { messages := rb.messages
            write_index := rb.write_index
            read_index := (rb.read_index + 1) % 2 ^ 32 }) := by
      unfold RingBuffer.dequeue
      rw [if_neg hempty]
    have hmsg : rb.messages.getD (rb.read_index % 256) (RingMessage.new 0 0 0) =
        acc.getD deqd.length (RingMessage.new 0 0 0) := by
      have hidx : rb.read_index % 256 = deqd.length % 256 := by
        rw [hr, pow32_val]
        omega
      rw [hidx]
      exact hslot deqd.length (le_refl _) hlt
    refine ⟨hlt, by rw [hdq, hmsg], ?_⟩
    refine ⟨hlen, ?_, hw, ?_, ?_, ?_⟩
    · obtain ⟨t, ht⟩ := hpre
      cases t with
      | nil =>
        exfalso
        have : deqd.length = acc.length := by
          rw [← ht]
          simp
        omega
      | cons c t' =>
        have hc : acc.getD deqd.length (RingMessage.new 0 0 0) = c := by
          rw [← ht, List.getD_append_right _ _ _ _ (le_refl _)]
          simp
        rw [hc, ← ht]
        exact ⟨t', by simp⟩
    · show (rb.read_index + 1) % 2 ^ 32 = (deqd ++ [_]).length % 2 ^ 32
      simp only [List.length_append, List.length_singleton]
      rw [hr, pow32_val]
      omega
    · show acc.length - (deqd ++ [_]).length ≤ 255
      simp only [List.length_append, List.length_singleton]
      omega
    · intro i h1 h2
      simp only [List.length_append, List.length_singleton] at h1
      exact hslot i (by omega) h2

/-- The history invariant is maintained along any run of ring-buffer
operations. -/
theorem runIpc_inv (ops : List IpcOp) :
    ∀ rb acc deqd, IpcInv rb acc deqd →
      IpcInv (runIpc ops rb acc deqd).1 (runIpc ops rb acc deqd).2.1
        (runIpc ops rb acc deqd).2.2 := by
  induction ops with
  | nil =>
    intro rb acc deqd h
    exact h
  | cons op ops ih =>
    intro rb acc deqd h
    cases op with
    | enq m =>
      rcases ipc_inv_enq rb acc deqd h m with ⟨_, herr⟩ | ⟨_, hok, hinv⟩
      · have hrun : runIpc (.enq m :: ops) rb acc deqd = runIpc ops rb acc deqd := by
          simp only [runIpc, herr]
        rw [hrun]
        exact ih rb acc deqd h
      · have hrun : runIpc (.enq m :: ops) rb acc deqd =
            runIpc ops
              { messages := rb.messages.set (rb.write_index % 256) m
                write_index := (rb.write_index + 1) % 2 ^ 32
                read_index := rb.read_index } (acc ++ [m]) deqd := by
          simp only [runIpc, hok]
        rw [hrun]
        exact ih _ _ _ hinv
    | deq =>
      rcases ipc_inv_deq rb acc deqd h with ⟨_, hnone⟩ | ⟨_, hsome, hinv⟩
      · have hrun : runIpc (.deq :: ops) rb acc deqd = runIpc ops rb acc deqd := by
          simp only [runIpc, hnone]
        rw [hrun]
        exact ih rb acc deqd h
      · have hrun : runIpc (.deq :: ops) rb acc deqd =
            runIpc ops
              { messages := rb.messages
                write_index := rb.write_index
                read_index := (rb.read_index + 1) % 2 ^ 32 }
              acc (deqd ++ [acc.getD deqd.length (RingMessage.new 0 0 0)]) := by
          simp only [runIpc, hsome]
        rw [hrun]
        exact ih _ _ _ hinv

/-- C2: over any sequence of enqueue/dequeue operations on an
initialized ring buffer, the dequeued messages form a prefix of the
successfully enqueued messages (FIFO order); at most `capacity - 1 = 255`
messages are ever resident; and an enqueue attempted with 255 resident
messages returns an error — its early-return path stores nothing, so
both indices are left unchanged (in the model the failing `runIpc` step
keeps the state as is). -/
theorem ring_buffer_fifo (ops : List IpcOp) :
    (runIpc ops RingBuffer.init [] []).2.2 <+:
      (runIpc ops RingBuffer.init [] []).2.1 ∧
    (runIpc ops RingBuffer.init [] []).2.1.length -
      (runIpc ops RingBuffer.init [] []).2.2.length ≤ 255 ∧
    ∀ m, (runIpc ops RingBuffer.init [] []).2.1.length -
        (runIpc ops RingBuffer.init [] []).2.2.length = 255 →
      (runIpc ops RingBuffer.init [] []).1.enqueue m = .error () := by
  obtain ⟨hlen, hpre, hw, hr, hres, hslot⟩ :=
    runIpc_inv ops RingBuffer.init [] [] ipc_inv_init
  refine ⟨hpre, hres, ?_⟩
  intro m hfull
  rcases ipc_inv_enq _ _ _ ⟨hlen, hpre, hw, hr, hres, hslot⟩ m with
    ⟨_, herr⟩ | ⟨hnf, _, _⟩
  · exact herr
  · exact absurd hfull hnf

set_option maxRecDepth 100000

/-- Witness for the FIFO theorem: after 255 accepted enqueues the buffer
holds 255 resident messages and the 256th enqueue fails. -/
theorem ring_buffer_fifo_witness :
    (runIpc (List.replicate 255 (IpcOp.enq (RingMessage.new 1 2 3)))
        RingBuffer.init [] []).1.enqueue (RingMessage.new 4 5 6) =
      .error () :=
  (ring_buffer_fifo (List.replicate 255 (IpcOp.enq (RingMessage.new 1 2 3)))).2.2
    (RingMessage.new 4 5 6) (by decide)

end Orbital
